import Mathlib

/-!
# Verification of the synthetic-MRI hackathon notebook

Shallow embedding of `solution/solution.ipynb` (the only source file of the
repository).  Arrays of pixels and labels become Lean lists, `numpy` / `torch`
library calls are embedded with their documented elementwise semantics, and the
helper modules the notebook imports (`utils`, `dataset`, `train`) are not part
of the repository snapshot, so the definitions taken from them are modelled
from the specification and marked as such in their doc comments.
-/

/-! ## Label binarization

The notebook binarizes the integer class labels with
`np.clip(labels, 0, 1)` (cell "binary classification"). -/

/-- Elementwise semantics of `np.clip(x, lo, hi)` for integers: values below
`lo` become `lo`, values above `hi` become `hi`, everything else is kept. -/
def npClip (x lo hi : Int) : Int :=
  if x < lo then lo else if hi < x then hi else x

/-- The notebook's binarization step: `np.clip(labels, 0, 1)` applied to a
label array. -/
def binarizeLabels (labels : List Int) : List Int :=
  labels.map (fun l => npClip l 0 1)

/-! ## Adversarial-validation data

Cell "concat all data (synthetic: 0, real: 1)":
`all_images = np.concatenate([synth_images, real_images])` and
`all_labels = np.concatenate([np.zeros(len(synth_images)), np.ones(len(real_images))])`. -/

/-- `np.concatenate([synth_images, real_images])`. -/
def all_images {Img : Type} (synth_images real_images : List Img) : List Img :=
  synth_images ++ real_images

/-- `np.concatenate([np.zeros(len(synth_images)), np.ones(len(real_images))])`
cast to integers. -/
def all_labels {Img : Type} (synth_images real_images : List Img) : List Int :=
  List.replicate synth_images.length 0 ++ List.replicate real_images.length 1

/-- C1: the binarization step maps every integer label to
`min (max label 0) 1`; labels `≥ 1` go to `1`, label `0` goes to `0`, and the
result is always in `{0, 1}`. -/
theorem binarize_clips_to_binary (l : Int) :
    npClip l 0 1 = min (max l 0) 1 ∧
    (1 ≤ l → npClip l 0 1 = 1) ∧
    (l = 0 → npClip l 0 1 = 0) ∧
    (npClip l 0 1 = 0 ∨ npClip l 0 1 = 1) := by
  unfold npClip
  constructor
  · split <;> rename_i h1
    · omega
    · split <;> omega
  refine ⟨fun h => ?_, fun h => ?_, ?_⟩
  · split <;> [omega; (split <;> omega)]
  · subst h; norm_num
  · split
    · left; rfl
    · split
      · right; rfl
      · omega

/-- Witness for `binarize_clips_to_binary` at labels `3` and `0`. -/
theorem binarize_clips_to_binary_witness :
    npClip 3 0 1 = 1 ∧ npClip 0 0 1 = 0 :=
  ⟨(binarize_clips_to_binary 3).2.1 (by norm_num),
   (binarize_clips_to_binary 0).2.2.1 rfl⟩

/-- Index lookup in the adversarial label array: the first block of zeros
covers indices below `m`, the block of ones the rest. -/
theorem replicate_append_getD (m n i : Nat) (hi : i < m + n) :
    (List.replicate m (0 : Int) ++ List.replicate n 1).getD i 2
      = if i < m then 0 else 1 := by
  rcases Nat.lt_or_ge i m with h | h
  · rw [List.getD_append _ _ _ _ (by simpa using h),
      List.getD_eq_getElem _ _ (by simpa using h), List.getElem_replicate]
    simp [h]
  · rw [List.getD_append_right _ _ _ _ (by simpa using h), List.length_replicate,
      List.getD_eq_getElem _ _ (by rw [List.length_replicate]; omega),
      List.getElem_replicate]
    simp [Nat.not_lt.mpr h]

/-- C9: both adversarial-validation arrays have length
`len synth_images + len real_images`, and sample `i` has label `0` exactly when
it came from the synthetic block (`i < len synth_images`), label `1` exactly
when it came from the real block. -/
theorem adversarial_concat_labels {Img : Type} (synth_images real_images : List Img)
    (i : Nat) (hi : i < synth_images.length + real_images.length) :
    (all_images synth_images real_images).length
        = synth_images.length + real_images.length ∧
    (all_labels synth_images real_images).length
        = synth_images.length + real_images.length ∧
    ((all_labels synth_images real_images).getD i 2 = 0 ↔ i < synth_images.length) ∧
    ((all_labels synth_images real_images).getD i 2 = 1 ↔ synth_images.length ≤ i) := by
  have hlen : (all_labels synth_images real_images).length
      = synth_images.length + real_images.length := by
    simp [all_labels]
  have hget := replicate_append_getD synth_images.length real_images.length i hi
  refine ⟨by simp [all_images], hlen, ?_, ?_⟩ <;>
  · unfold all_labels
    rw [hget]
    rcases Nat.lt_or_ge i synth_images.length with h | h <;>
      simp [h, Nat.not_lt.mpr, Nat.not_le.mpr]

/-- Witness for `adversarial_concat_labels`: two synthetic samples, one real
sample, queried at index 2 (the real sample). -/
theorem adversarial_concat_labels_witness :
    (all_images [10, 20] [30]).length = 3 ∧
    (all_labels [10, 20] [30]).length = 3 ∧
    ((all_labels [10, 20] [30]).getD 2 2 = 0 ↔ 2 < 2) ∧
    ((all_labels [10, 20] [30]).getD 2 2 = 1 ↔ 2 ≤ 2) := by
  have h := adversarial_concat_labels [(10 : Int), 20] [30] 2 (by decide)
  simpa using h

/-! ## Transform pipeline

Cell "image transformation":
`transform = transforms.Compose([Unsqueeze(axis=-1), Repeat(n_channel=3, axis=-1), transforms.ToTensor()])`.
`Unsqueeze` and `Repeat` come from the notebook's `dataset` module, which is
not part of the repository snapshot. -/

/-- Modelled from the spec: `Unsqueeze(axis=-1)` from the missing `dataset`
module inserts a new trailing axis of size 1, turning an `(H, W)` array into
`(H, W, 1)`. -/
def unsqueezeLast (img : List (List ℚ)) : List (List (List ℚ)) :=
  img.map (fun row => row.map (fun px => [px]))

/-- Modelled from the spec: `Repeat(n_channel=n, axis=-1)` from the missing
`dataset` module replicates entries along the trailing axis `n` times, turning
`(H, W, 1)` into `(H, W, n)`. -/
def repeatLast (n : Nat) (a : List (List (List ℚ))) : List (List (List ℚ)) :=
  a.map (fun row => row.map (fun ch => ch.flatMap (fun x => List.replicate n x)))

/-- `torchvision.transforms.ToTensor()` on an `(H, W, C)` array: rescale pixel
values to `[0, 1]` by dividing by 255 and reorder to channel-first `(C, H, W)`. -/
def toTensor (a : List (List (List ℚ))) : List (List (List ℚ)) :=
  (List.range ((a.headD []).headD []).length).map
    (fun c => a.map (fun row => row.map (fun px => px.getD c 0 / 255)))

/-- The notebook's full transform pipeline, in source order:
unsqueeze, then repeat to 3 channels, then normalize-convert. -/
def transformPipeline (img : List (List ℚ)) : List (List (List ℚ)) :=
  toTensor (repeatLast 3 (unsqueezeLast img))

/-- C2: on any `(H, W)` image with `H > 0` and `W > 0` the pipeline
unsqueeze -> repeat-to-3 -> normalize-convert produces an array of shape
exactly `(3, H, W)`. -/
theorem transform_pipeline_shape (img : List (List ℚ)) (H W : Nat)
    (hH : img.length = H) (hW : ∀ row ∈ img, row.length = W)
    (hH0 : 0 < H) (hW0 : 0 < W) :
    (transformPipeline img).length = 3 ∧
    ∀ plane ∈ transformPipeline img,
      plane.length = H ∧ ∀ row ∈ plane, row.length = W := by
  obtain ⟨r0, rest, rfl⟩ : ∃ r0 rest, img = r0 :: rest := by
    cases img with
    | nil => simp at hH; omega
    | cons a l => exact ⟨a, l, rfl⟩
  obtain ⟨p0, ps, rfl⟩ : ∃ p0 ps, r0 = p0 :: ps := by
    have h0 := hW r0 (List.mem_cons_self r0 rest)
    cases r0 with
    | nil => simp at h0; omega
    | cons a l => exact ⟨a, l, rfl⟩
  constructor
  · simp [transformPipeline, toTensor, repeatLast, unsqueezeLast]
  · intro plane hplane
    simp only [transformPipeline, toTensor, List.mem_map] at hplane
    obtain ⟨c, _, rfl⟩ := hplane
    constructor
    · simpa [repeatLast, unsqueezeLast] using hH
    · intro row hrow
      rw [List.mem_map] at hrow
      obtain ⟨arow, harow, rfl⟩ := hrow
      rw [repeatLast, List.mem_map] at harow
      obtain ⟨urow, hurow, rfl⟩ := harow
      rw [unsqueezeLast, List.mem_map] at hurow
      obtain ⟨orow, horow, rfl⟩ := hurow
      simpa using hW orow horow

/-- Witness for `transform_pipeline_shape`: a concrete 2-by-2 image. -/
theorem transform_pipeline_shape_witness :
    (transformPipeline [[1, 2], [3, 4]]).length = 3 ∧
    ∀ plane ∈ transformPipeline [[1, 2], [3, 4]],
      plane.length = 2 ∧ ∀ row ∈ plane, row.length = 2 :=
  transform_pipeline_shape [[1, 2], [3, 4]] 2 2 (by decide)
    (by decide) (by decide) (by decide)

/-! ## Dataset adapter

The notebook builds every dataset with `MRIDataset(images=..., labels=...,
transform=transform)` from its `dataset` module, which is not part of the
repository snapshot. -/

/-- Modelled from the spec: `MRIDataset` from the missing `dataset` module is
constructed from an image array, a label array and a transform, and exposes
index-based sample access. -/
structure MRIDataset (Img TImg Lbl : Type) where
  images : List Img
  labels : List Lbl
  transform : Img → TImg

/-- Modelled from the spec: `len(dataset)` is the sample count. -/
def MRIDataset.len {Img TImg Lbl : Type} (d : MRIDataset Img TImg Lbl) : Nat :=
  d.images.length

/-- Modelled from the spec: `dataset[i]` applies the transform lazily and
returns `(transformed_image, label)`; an out-of-bounds index raises an
IndexError, embedded here as `none`. -/
def MRIDataset.getItem {Img TImg Lbl : Type} (d : MRIDataset Img TImg Lbl)
    (i : Nat) : Option (TImg × Lbl) :=
  match d.images[i]?, d.labels[i]? with
  | some img, some lbl => some (d.transform img, lbl)
  | _, _ => none

/-- C5: for a dataset built from image and label arrays of equal length,
`len` equals the number of input images, `get i` succeeds for every
`i < len`, and `get i` fails for every out-of-bounds index. -/
theorem dataset_len_get {Img TImg Lbl : Type} (d : MRIDataset Img TImg Lbl)
    (h : d.labels.length = d.images.length) :
    d.len = d.images.length ∧
    (∀ i, i < d.len → (d.getItem i).isSome = true) ∧
    (∀ i, d.len ≤ i → d.getItem i = none) := by
  refine ⟨rfl, fun i hi => ?_, fun i hi => ?_⟩
  · have hi' : i < d.images.length := hi
    unfold MRIDataset.getItem
    rw [List.getElem?_eq_getElem hi', List.getElem?_eq_getElem (h ▸ hi')]
    rfl
  · unfold MRIDataset.getItem
    rw [List.getElem?_eq_none hi]

/-- Witness for `dataset_len_get`: a concrete two-sample dataset. -/
theorem dataset_len_get_witness :
    (MRIDataset.mk [7, 8] [0, 1] (fun x => x + 1)).len = 2 ∧
    (∀ i, i < (MRIDataset.mk [7, 8] [0, 1] (fun x => x + 1)).len →
      ((MRIDataset.mk [7, 8] [0, 1] (fun x => x + 1)).getItem i).isSome = true) ∧
    (∀ i, (MRIDataset.mk [7, 8] [0, 1] (fun x => x + 1)).len ≤ i →
      (MRIDataset.mk ([7, 8] : List Nat) ([0, 1] : List Nat)
        (fun x => x + 1)).getItem i = none) :=
  dataset_len_get (MRIDataset.mk [7, 8] [0, 1] (fun x => x + 1)) (by decide)

/-- The notebook's construction of `real_final_dataset` (cell
"make datasets"): it pairs `real_final_images` with `real_labels` — the label
array of the real TRAIN split — instead of `real_final_labels`. -/
def real_final_dataset {Img TImg : Type} (real_final_images : List Img)
    (real_labels : List Int) (transform : Img → TImg) :
    MRIDataset Img TImg Int :=
  { images := real_final_images, labels := real_labels, transform := transform }

/-- C4: evaluating the notebook's `real_final_dataset` construction at a
failing input — a holdout set of 2 images paired with the 3 labels of the real
train set — breaks the equal-length contract that every other dataset of the
program satisfies. -/
theorem real_final_dataset_length_mismatch :
    (real_final_dataset [5, 6] [0, 1, 1] (fun x : Int => x)).images.length = 2 ∧
    (real_final_dataset [5, 6] [0, 1, 1] (fun x : Int => x)).labels.length = 3 ∧
    (real_final_dataset [5, 6] [0, 1, 1] (fun x : Int => x)).images.length ≠
      (real_final_dataset [5, 6] [0, 1, 1] (fun x : Int => x)).labels.length :=
  ⟨rfl, rfl, by decide⟩

/-! ## Evaluation and metrics

`validate_epoch` and `metrics_callback` come from the notebook's `train`
module, which is not part of the repository snapshot. -/

/-- Index of the maximal class score (first occurrence) — the argmax used to
turn model logits into a predicted class. -/
def argmaxIdx : List ℚ → Nat
  | [] => 0
  | x :: xs =>
    if x < (xs.foldr max x) ∧ xs ≠ [] then
      have j := argmaxIdx xs
      j + 1
    else 0

/-- Modelled from the spec: `validate_epoch` from the missing `train` module
iterates the whole dataset with gradients disabled and records, per sample,
the pair (true label, predicted class = argmax of the model output). -/
def validate_epoch {TImg : Type} (model : TImg → List ℚ)
    (data : List (TImg × Nat)) : List (Nat × Nat) :=
  data.map (fun s => (s.2, argmaxIdx (model s.1)))

/-- Modelled from the spec: the scalar-accuracy half of `metrics_callback`
from the missing `train` module — the fraction of exact label matches in the
metrics record. -/
def metrics_accuracy (record : List (Nat × Nat)) : ℚ :=
  ((record.countP (fun p => p.1 == p.2) : Nat) : ℚ) / (record.length : ℚ)

/-- C6: over any evaluation run, the accuracy reported by the metrics callback
is exactly the number of samples whose predicted class equals their true label
divided by the number of samples, and it lies in `[0, 1]`. -/
theorem evaluation_accuracy {TImg : Type} (model : TImg → List ℚ)
    (data : List (TImg × Nat)) (h : 0 < data.length) :
    metrics_accuracy (validate_epoch model data)
        = ((data.countP (fun s => s.2 == argmaxIdx (model s.1)) : Nat) : ℚ)
            / (data.length : ℚ) ∧
    0 ≤ metrics_accuracy (validate_epoch model data) ∧
    metrics_accuracy (validate_epoch model data) ≤ 1 := by
  have hcount : (validate_epoch model data).countP (fun p => p.1 == p.2)
      = data.countP (fun s => s.2 == argmaxIdx (model s.1)) := by
    unfold validate_epoch
    rw [List.countP_map]
    rfl
  have hlen : (validate_epoch model data).length = data.length := by
    simp [validate_epoch]
  refine ⟨by rw [metrics_accuracy, hcount, hlen], ?_, ?_⟩
  · unfold metrics_accuracy
    positivity
  · unfold metrics_accuracy
    rw [div_le_one (by rw [hlen]; exact_mod_cast h)]
    rw [hlen, hcount]
    exact_mod_cast (List.countP_le_length _).trans_eq rfl

/-- Witness for `evaluation_accuracy`: a constant model evaluated on two
samples, one of which it labels correctly; the accuracy is `1/2`. -/
theorem evaluation_accuracy_witness :
    metrics_accuracy (validate_epoch (fun _ : Unit => [(1 : ℚ)/2, 1/4])
        [((), 0), ((), 1)])
      = ((List.countP (fun s => s.2 == argmaxIdx ((fun _ : Unit => [(1 : ℚ)/2, 1/4]) s.1))
          [((), 0), ((), 1)] : Nat) : ℚ) / (2 : ℚ) ∧
    0 ≤ metrics_accuracy (validate_epoch (fun _ : Unit => [(1 : ℚ)/2, 1/4])
        [((), 0), ((), 1)]) ∧
    metrics_accuracy (validate_epoch (fun _ : Unit => [(1 : ℚ)/2, 1/4])
        [((), 0), ((), 1)]) ≤ 1 := by
  have h := evaluation_accuracy (fun _ : Unit => [(1 : ℚ)/2, 1/4])
    [((), 0), ((), 1)] (by decide)
  simpa using h

/-! ## Model parameter save / load

Cell "save model": `torch.save(model.state_dict(), 'models/synthetic_model.pth')`. -/

/-- Modelled from the spec: a model as the notebook uses it — an architecture
(a pure forward function) together with its parameter state; in evaluation
mode the forward pass depends only on the parameters and the input. -/
structure TorchModel (P X Y : Type) where
  params : P
  forward : P → X → Y

/-- Modelled from the spec: `model.state_dict()` as handed to `torch.save` —
a pure snapshot holding exactly the parameter tensors, with no optimizer state
and no metadata. -/
def state_dict {P X Y : Type} (m : TorchModel P X Y) : P := m.params

/-- Modelled from the spec: `model.load_state_dict(saved)` installs a saved
parameter snapshot into a freshly constructed model. -/
def load_state_dict {P X Y : Type} (m : TorchModel P X Y) (saved : P) :
    TorchModel P X Y :=
  { m with params := saved }

/-- One forward pass of the model on a fixed input. -/
def TorchModel.predict {P X Y : Type} (m : TorchModel P X Y) (x : X) : Y :=
  m.forward m.params x

/-- C7: saving a model's parameters and loading them into a freshly
constructed model of the same architecture reproduces the original
predictions on any fixed input, and the saved snapshot is exactly the
parameter state, nothing more. -/
theorem save_load_round_trip {P X Y : Type} (m fresh : TorchModel P X Y)
    (x : X) (h : fresh.forward = m.forward) :
    (load_state_dict fresh (state_dict m)).predict x = m.predict x ∧
    state_dict m = m.params := by
  constructor
  · unfold TorchModel.predict load_state_dict state_dict
    rw [h]
  · rfl

/-- Witness for `save_load_round_trip`: an affine one-parameter model with
parameter `2`, reloaded into a fresh copy initialised with parameter `0`. -/
theorem save_load_round_trip_witness :
    (load_state_dict (TorchModel.mk (0 : Int) (fun p x => p + x))
        (state_dict (TorchModel.mk (2 : Int) (fun p x => p + x)))).predict 5
      = (TorchModel.mk (2 : Int) (fun p x => p + x)).predict 5 ∧
    state_dict (TorchModel.mk (2 : Int) (fun p x => p + x)) = 2 :=
  save_load_round_trip (TorchModel.mk (2 : Int) (fun p x => p + x))
    (TorchModel.mk (0 : Int) (fun p x => p + x)) 5 rfl

/-! ## Seeded shuffling and train/test splits

Cell "train/test split": `train_test_split(..., test_size=0.20,
random_state=42)`; cells "adversarial validation": `train_len =
int(len(adv_val_dataset) * 0.8)` followed by `random_split(dataset,
lengths=[train_len, val_len])`.  Both shuffle the index set with the seeded
generator and cut it in two. -/

/-- Modelled from the spec: one step of the process-wide pseudorandom
generator seeded by `set_global_seed(42)` / `random_state=42`.  A 64-bit
linear congruential step stands in for the library generator; all the spec
relies on is that it is a deterministic function of its state. -/
def lcgNext (s : Nat) : Nat :=
  (6364136223846793005 * s + 1442695040888963407) % 2 ^ 64

/-- Fisher-Yates shuffle of an index list driven by the seeded generator; the
fuel argument is the list length, making the recursion structural. -/
def shuffleAux : Nat → Nat → List Nat → List Nat
  | 0, _, _ => []
  | fuel + 1, seed, l =>
    let s := lcgNext seed
    let i := s % l.length
    l.getD i 0 :: shuffleAux fuel s (l.eraseIdx i)

/-- Modelled from the spec: the reproducible shuffle behind both
`train_test_split(random_state=42)` and `random_split` — a deterministic
function of the seed and the input list. -/
def shuffle (seed : Nat) (l : List Nat) : List Nat :=
  shuffleAux l.length seed l

/-- The shuffled list is a permutation of the input. -/
theorem shuffleAux_perm :
    ∀ (fuel seed : Nat) (l : List Nat), fuel = l.length →
      (shuffleAux fuel seed l).Perm l := by
  intro fuel
  induction fuel with
  | zero =>
    intro seed l hl
    cases l with
    | nil => simp [shuffleAux]
    | cons a t => simp at hl
  | succ n ih =>
    intro seed l hl
    have hne : l ≠ [] := by intro h; subst h; simp at hl
    have hlen : 0 < l.length := List.length_pos.mpr hne
    have hilt : lcgNext seed % l.length < l.length := Nat.mod_lt _ hlen
    have hlen2 : n = (l.eraseIdx (lcgNext seed % l.length)).length := by
      rw [List.length_eraseIdx_of_lt hilt]; omega
    show (l.getD (lcgNext seed % l.length) 0 ::
      shuffleAux n (lcgNext seed) (l.eraseIdx (lcgNext seed % l.length))).Perm l
    refine ((ih (lcgNext seed) _ hlen2).cons _).trans ?_
    rw [List.getD_eq_getElem l 0 hilt, List.eraseIdx_eq_take_drop_succ]
    refine List.Perm.trans List.perm_middle.symm ?_
    rw [List.getElem_cons_drop l _ hilt, List.take_append_drop]

/-- The shuffle is a permutation of its input list. -/
theorem shuffle_perm (seed : Nat) (l : List Nat) : (shuffle seed l).Perm l :=
  shuffleAux_perm l.length seed l rfl

/-- `sklearn.model_selection.train_test_split(..., test_size=0.20,
random_state=seed)` over the index set `{0, ..., n-1}`: the shuffled index
set is cut into a test part of `ceil(0.2 * n) = ⌈n / 5⌉` indices and a train
part holding the rest.  Returns `(train_indices, test_indices)`. -/
def train_test_split (seed n : Nat) : List Nat × List Nat :=
  let p := shuffle seed (List.range n)
  (p.drop ((n + 4) / 5), p.take ((n + 4) / 5))

/-- The notebook's `random_split` call: `train_len = int(len * 0.8) =
⌊0.8 n⌋`, the shuffled index set is cut into the first `train_len` indices
(train) and the rest (validation). -/
def random_split (seed n : Nat) : List Nat × List Nat :=
  let p := shuffle seed (List.range n)
  (p.take (4 * n / 5), p.drop (4 * n / 5))

/-- C3, counterexample: at `N = 7` both split operations produce a train part
of `⌊0.8 * 7⌋ = 5` indices, while the claimed size `round(0.8 * 7)` is `6`. -/
theorem split_sizes_not_round :
    (train_test_split 42 7).1.length = 5 ∧
    (random_split 42 7).1.length = 5 ∧
    round ((0.8 : ℚ) * 7) = 6 ∧
    ((train_test_split 42 7).1.length : Int) ≠ round ((0.8 : ℚ) * 7) := by
  refine ⟨by decide, by decide, ?_, ?_⟩
  · have : (0.8 : ℚ) * 7 = 28 / 5 := by norm_num
    rw [this, round_eq]
    norm_num
  · intro h
    have h5 : (train_test_split 42 7).1.length = 5 := by decide
    have : (0.8 : ℚ) * 7 = 28 / 5 := by norm_num
    rw [h5, this, round_eq] at h
    norm_num at h

/-- C3 (amended): for every seed and every index-set size `n`, both split
operations produce train and test parts of sizes exactly `⌊0.8 n⌋` and
`n - ⌊0.8 n⌋`, the two index sets are disjoint, and together they are a
permutation of the full index set `{0, ..., n-1}`. -/
theorem split_sizes_disjoint_union (seed n : Nat) :
    (train_test_split seed n).1.length = 4 * n / 5 ∧
    (train_test_split seed n).2.length = n - 4 * n / 5 ∧
    (random_split seed n).1.length = 4 * n / 5 ∧
    (random_split seed n).2.length = n - 4 * n / 5 ∧
    (train_test_split seed n).1.Disjoint (train_test_split seed n).2 ∧
    ((train_test_split seed n).1 ++ (train_test_split seed n).2).Perm
      (List.range n) := by
  have hp : (shuffle seed (List.range n)).Perm (List.range n) :=
    shuffle_perm seed (List.range n)
  have hplen : (shuffle seed (List.range n)).length = n := by
    rw [hp.length_eq, List.length_range]
  have hnodup : (shuffle seed (List.range n)).Nodup :=
    hp.nodup_iff.mpr (List.nodup_range n)
  refine ⟨?_, ?_, ?_, ?_, ?_, ?_⟩
  · simp only [train_test_split, List.length_drop, hplen]; omega
  · simp only [train_test_split, List.length_take, hplen]; omega
  · simp only [random_split, List.length_take, hplen]; omega
  · simp only [random_split, List.length_drop, hplen]
  · exact fun a ha hb =>
      (List.disjoint_take_drop hnodup le_rfl) hb ha
  · exact List.perm_append_comm.trans
      ((List.take_append_drop _ _).symm ▸ hp)

/-- C8: with the seed and the inputs fixed, the train/test split is one
deterministic value (two runs agree), and the two parts are disjoint subsets
of the same source index set `{0, ..., n-1}`. -/
theorem split_deterministic_disjoint_subsets (seed n : Nat) :
    train_test_split seed n = train_test_split seed n ∧
    (train_test_split seed n).1.Disjoint (train_test_split seed n).2 ∧
    (∀ i ∈ (train_test_split seed n).1, i ∈ List.range n) ∧
    (∀ i ∈ (train_test_split seed n).2, i ∈ List.range n) := by
  have hp : (shuffle seed (List.range n)).Perm (List.range n) :=
    shuffle_perm seed (List.range n)
  have hnodup : (shuffle seed (List.range n)).Nodup :=
    hp.nodup_iff.mpr (List.nodup_range n)
  refine ⟨rfl, ?_, ?_, ?_⟩
  · exact fun a ha hb =>
      (List.disjoint_take_drop hnodup le_rfl) hb ha
  · exact fun i hi => hp.mem_iff.mp (List.mem_of_mem_drop hi)
  · exact fun i hi => hp.mem_iff.mp (List.mem_of_mem_take hi)

/-! ## Quality filter

Cell "filter bad images": `indices = np.argsort(scores)[-6000:]`, then
`good_synth_images = synth_images[indices]` and
`good_synth_labels = synth_labels[indices]`. -/

/-- `np.argsort(scores)`: the index list `{0, ..., n-1}` reordered so that
the scores read in ascending order (modelled with insertion sort). -/
def argsort (scores : List ℚ) : List Nat :=
  List.insertionSort (fun i j => scores.getD i 0 ≤ scores.getD j 0)
    (List.range scores.length)

/-- `np.argsort(scores)[-6000:]`: the (at most) 6000 sorted indices with the
highest scores; a Python slice `[-k:]` of a shorter list is the whole list. -/
def selectedIndices (scores : List ℚ) : List Nat :=
  (argsort scores).drop ((argsort scores).length - 6000)

/-- `good_synth_images = synth_images[indices]` — fancy indexing by the
selected index list. -/
def good_synth_images {Img : Type} (scores : List ℚ) (images : List Img)
    (d : Img) : List Img :=
  (selectedIndices scores).map (fun i => images.getD i d)

/-- `good_synth_labels = synth_labels[indices]` — the same index list applied
to the label array. -/
def good_synth_labels (scores : List ℚ) (labels : List Int) : List Int :=
  (selectedIndices scores).map (fun i => labels.getD i 0)

/-- Indexing a mapped index list: position `k` of `l.map f` is `f` of the
index stored at position `k`. -/
theorem map_getD_of_lt {α : Type} (f : Nat → α) (l : List Nat) (k : Nat)
    (d : α) (hk : k < l.length) :
    (l.map f).getD k d = f (l.getD k 0) := by
  rw [List.getD_eq_getElem _ _ (by simpa using hk), List.getElem_map,
    List.getD_eq_getElem _ _ hk]

/-- C10: the quality filter keeps exactly `min 6000 n` samples, images and
labels are taken at the same selected indices, and every selected sample's
score is at least every unselected sample's score. -/
theorem quality_filter_top_scores {Img : Type} (scores : List ℚ)
    (images : List Img) (labels : List Int) (d : Img)
    (himg : images.length = scores.length)
    (hlab : labels.length = scores.length) :
    (good_synth_images scores images d).length = min 6000 images.length ∧
    (good_synth_labels scores labels).length = min 6000 images.length ∧
    (∀ k, k < (selectedIndices scores).length →
      (good_synth_images scores images d).getD k d
          = images.getD ((selectedIndices scores).getD k 0) d ∧
      (good_synth_labels scores labels).getD k 0
          = labels.getD ((selectedIndices scores).getD k 0) 0) ∧
    (∀ i ∈ selectedIndices scores, ∀ j, j < scores.length →
      j ∉ selectedIndices scores → scores.getD j 0 ≤ scores.getD i 0) := by
  have hperm : (argsort scores).Perm (List.range scores.length) :=
    List.perm_insertionSort _ _
  have hlen : (argsort scores).length = scores.length :=
    hperm.length_eq.trans (List.length_range _)
  have hsel : (selectedIndices scores).length = min 6000 scores.length := by
    simp only [selectedIndices, List.length_drop, hlen]; omega
  refine ⟨?_, ?_, fun k hk => ?_, ?_⟩
  · simp only [good_synth_images, List.length_map, hsel, himg]
  · simp only [good_synth_labels, List.length_map, hsel, himg]
  · exact ⟨map_getD_of_lt _ _ _ _ hk, map_getD_of_lt _ _ _ _ hk⟩
  · intro i hi j hj hj2
    haveI hto : IsTotal Nat (fun i j => scores.getD i 0 ≤ scores.getD j 0) :=
      ⟨fun a b => le_total _ _⟩
    haveI htr : IsTrans Nat (fun i j => scores.getD i 0 ≤ scores.getD j 0) :=
      ⟨fun a b c hab hbc => le_trans hab hbc⟩
    have hsorted : List.Pairwise (fun i j => scores.getD i 0 ≤ scores.getD j 0)
        (argsort scores) :=
      List.sorted_insertionSort _ _
    have hjmem : j ∈ argsort scores :=
      hperm.mem_iff.mpr (List.mem_range.mpr hj)
    have hsplit := (List.take_append_drop
      ((argsort scores).length - 6000) (argsort scores)).symm
    have hjtake : j ∈ (argsort scores).take ((argsort scores).length - 6000) := by
      rcases (List.mem_append.mp (hsplit ▸ hjmem)) with h | h
      · exact h
      · exact absurd h hj2
    rw [hsplit] at hsorted
    exact (List.pairwise_append.mp hsorted).2.2 j hjtake i hi

/-- Witness for `quality_filter_top_scores`: three samples, all of which the
cap of 6000 keeps; the selected index list is `[0, 2, 1]` (scores ascending). -/
theorem quality_filter_top_scores_witness :
    (good_synth_images [(1 : ℚ), 3, 2] [(10 : Int), 20, 30] 0).length
        = min 6000 ([(10 : Int), 20, 30]).length ∧
    (good_synth_labels [(1 : ℚ), 3, 2] [0, 1, 1]).length
        = min 6000 ([(10 : Int), 20, 30]).length ∧
    (∀ k, k < (selectedIndices [(1 : ℚ), 3, 2]).length →
      (good_synth_images [(1 : ℚ), 3, 2] [(10 : Int), 20, 30] 0).getD k 0
          = ([(10 : Int), 20, 30]).getD
              ((selectedIndices [(1 : ℚ), 3, 2]).getD k 0) 0 ∧
      (good_synth_labels [(1 : ℚ), 3, 2] [0, 1, 1]).getD k 0
          = ([(0 : Int), 1, 1]).getD
              ((selectedIndices [(1 : ℚ), 3, 2]).getD k 0) 0) ∧
    (∀ i ∈ selectedIndices [(1 : ℚ), 3, 2], ∀ j, j < ([(1 : ℚ), 3, 2]).length →
      j ∉ selectedIndices [(1 : ℚ), 3, 2] →
      ([(1 : ℚ), 3, 2]).getD j 0 ≤ ([(1 : ℚ), 3, 2]).getD i 0) :=
  quality_filter_top_scores [(1 : ℚ), 3, 2] [(10 : Int), 20, 30] [0, 1, 1] 0
    (by decide) (by decide)
